import Mathlib

/-!
Verification of the transcode orchestration pipeline in `src/index.ts`
(decentrabackend): resolution-ladder selection, parallel encode
coordination, sequential publishing to the content-addressed store, and
the `/upload` request orchestrator.

The embedding is shallow: the external capabilities (ffprobe inspection,
ffmpeg encoding, Pinata store calls, the filesystem unlink) are
parameters of the model (`World`), and each model definition mirrors the
corresponding function of `src/index.ts`.  JavaScript promise rejection
values are either `Error` objects (which have a `.message`) or bare
strings (whose `.message` is `undefined`); `JsErr` keeps that
distinction because the handler serialises `error.message` into the
response body.  `Promise.all` settles rejections in completion order,
which is nondeterministic; the model collects results in launch (catalog)
order, and every property proved about the collection is invariant under
that choice (lengths, memberships, error provenance, all-or-nothing).
-/

namespace Decentra

/-- A catalog entry (`interface Resolution` in `src/index.ts`). -/
structure Resolution where
  name : String
  size : String
  bitrate : String
deriving DecidableEq, Repr

/-- The fixed four-entry rendition catalog (`const resolutions`). -/
def resolutions : List Resolution :=
  [⟨"1080p", "1920x1080", "5000k"⟩,
   ⟨"720p", "1280x720", "2500k"⟩,
   ⟨"480p", "854x480", "1000k"⟩,
   ⟨"360p", "640x360", "600k"⟩]

/-- The effect of `String.split` on the single-character separator `"x"`, expressed on
the character list (structural recursion, so the kernel can evaluate the
catalog's concrete size strings). -/
def splitOnChar (c : Char) : List Char → List (List Char)
  | [] => [[]]
  | d :: rest =>
    if d = c then [] :: splitOnChar c rest
    else
      match splitOnChar c rest with
      | [] => [[d]]
      | g :: gs => (d :: g) :: gs

/-- The effect of `parseInt` on an all-digit string, as a base-10 fold
over the characters. -/
def parseDigits (l : List Char) : Nat :=
  l.foldl (fun a c => 10 * a + (c.toNat - '0'.toNat)) 0

/-- The expression `parseInt(size.split("x")[1])`: the frame height encoded in a `WxH`
size string.  (JS `parseInt` yields `NaN` off all-digit inputs; the model
yields a junk `Nat` there, and the function is only ever applied to the
four catalog size strings, which are `digits x digits`, where both
agree.) -/
def frameHeight (size : String) : Nat :=
  parseDigits ((splitOnChar 'x' size.data).getD 1 [])

/-- One stream descriptor of the ffprobe metadata (`codec_type`, and the
optional `height` field of video streams). -/
structure StreamInfo where
  codec_type : String
  height : Option Nat
deriving DecidableEq, Repr

/-- A JavaScript promise-rejection value: either an `Error` object
carrying a `.message`, or a bare string (whose `.message` is
`undefined`). -/
inductive JsErr where
  | errObj (message : String)
  | strVal (s : String)
deriving DecidableEq, Repr

/-- Property access `e.message` on a rejection value: defined for
`Error` objects, `undefined` (`none`) for bare strings. -/
def JsErr.messageField : JsErr → Option String
  | .errObj m => some m
  | .strVal _ => none

/-- Function `getVideoResolution` of `src/index.ts`: on an ffprobe error the
promise rejects with that `Error`; otherwise the first stream with
`codec_type === "video"` is looked up and its `height` returned when the
JS truthiness test `videoStream && videoStream.height` passes (the
height is present and nonzero); otherwise the promise rejects with the
bare string `"Could not determine video resolution."`. -/
def getVideoResolution (probeRes : Except String (List StreamInfo)) :
    Except JsErr Nat :=
  match probeRes with
  | .error err => .error (.errObj err)
  | .ok streams =>
    match streams.find? (fun s => s.codec_type == "video") with
    | none => .error (.strVal "Could not determine video resolution.")
    | some videoStream =>
      match videoStream.height with
      | none => .error (.strVal "Could not determine video resolution.")
      | some h =>
        if h == 0 then .error (.strVal "Could not determine video resolution.")
        else .ok h

/-- The ladder selector of `transcodeVideo`:
`resolutions.filter` with the predicate
`height <= inputHeight || height === inputHeight` where
`height = parseInt(size.split("x")[1])`. -/
def availableResolutions (inputHeight : Nat) : List Resolution :=
  resolutions.filter fun r =>
    decide (frameHeight r.size ≤ inputHeight) || (frameHeight r.size == inputHeight)

/-- The template literal `video_` + name + `_` + timestamp + `.mp4` —
the per-job output filename. -/
def outputFileName (rname : String) (timestamp : Nat) : String :=
  "video_" ++ rname ++ "_" ++ Nat.repr timestamp ++ ".mp4"

/-- The call `path.join(outputFolder, outputFileName)` — the full output
path of one encode job. -/
def outputFilePath (outputFolder rname : String) (timestamp : Nat) : String :=
  outputFolder ++ "/" ++ outputFileName rname timestamp

/-- Observable external effects of one request: the ffprobe call, the
ensure-output-folder-exists `mkdirSync`, each ffmpeg encode launch, each
Pinata store call, and the `unlinkSync` of the original upload. -/
inductive Ev where
  | probe
  | ensureDir (path : String)
  | encode (rname : String)
  | store (path : String)
  | unlink (path : String)
deriving DecidableEq, Repr

/-- The join of `Promise.all`: succeeds with every value when every promise
fulfills; otherwise rejects with a rejection of a failed member (taken
in list order in the model — see the header note). -/
def promiseAll : List (Except ε α) → Except ε (List α)
  | [] => .ok []
  | .error e :: _ => .error e
  | .ok a :: rest =>
    match promiseAll rest with
    | .error e => .error e
    | .ok as => .ok (a :: as)

/-- One fan-out branch of `transcodeVideo`: take a fresh `Date.now()`
timestamp for the job, build the unique filename and path, run the
external encode; on `end` the job yields the pushed record
`{name: outputFileName, path: outputFilePath}`, on `error` it rejects
with the ffmpeg `Error`'s message. -/
def encodeJob (encodeRes : String → Except String Unit) (tsOf : String → Nat)
    (outputFolder : String) (r : Resolution) : Except String (String × String) :=
  let timestamp := tsOf r.name
  match encodeRes r.name with
  | .error e => .error e
  | .ok _ => .ok (outputFileName r.name timestamp,
                  outputFilePath outputFolder r.name timestamp)

/-- Function `transcodeVideo`: ensure the output folder exists, filter the
catalog by the input height, launch one encode job per selected entry
(all launched regardless of sibling outcomes), and `await Promise.all`.
The second component is the effect trace. -/
def transcodeVideo (encodeRes : String → Except String Unit) (tsOf : String → Nat)
    (outputFolder : String) (inputHeight : Nat) :
    Except String (List (String × String)) × List Ev :=
  let avail := availableResolutions inputHeight
  (promiseAll (avail.map (encodeJob encodeRes tsOf outputFolder)),
   Ev.ensureDir outputFolder :: avail.map (fun r => Ev.encode r.name))

/-- The publish loop of the `/upload` handler: strictly sequential
`await uploadToPinata(path)` calls in input order, accumulating
`ipfsCIDs[name] = {videoCID: cid}`; the first store failure aborts the
loop and the whole `try` block rethrows it.  The second component is the
trace of store calls actually issued. -/
def publishAll (storeRes : String → Except String String) :
    List (String × String) → Except String (List (String × String)) × List Ev
  | [] => (.ok [], [])
  | (n, p) :: rest =>
    match storeRes p with
    | .error e => (.error e, [Ev.store p])
    | .ok cid =>
      match publishAll storeRes rest with
      | (.error e, tr) => (.error e, Ev.store p :: tr)
      | (.ok m, tr) => (.ok ((n, cid) :: m), Ev.store p :: tr)

/-- Outcomes of the external capabilities for one request: the ffprobe
result, the per-rendition encode outcome (keyed by rendition name, the
error being the ffmpeg `Error`'s message), the per-path store outcome,
the `Date.now()` value each encode job observes, and whether the
cleanup `unlinkSync` throws. -/
structure World where
  probeRes : Except String (List StreamInfo)
  encodeRes : String → Except String Unit
  storeRes : String → Except String String
  tsOf : String → Nat
  cleanupFails : Bool

/-- The JSON response: HTTP status plus the fields the handler ever
sets.  `none` is an absent field (`JSON.stringify` drops `undefined`
values, so `details: error.message` vanishes when the rejection value
was a bare string). -/
structure Response where
  status : Nat
  error : Option String
  details : Option String
  message : Option String
  files : Option (List (String × String))
deriving DecidableEq, Repr

/-- The constant `outputDir = path.resolve("output")` (kept relative:
only its role as common parent of the per-request folders matters). -/
def outputDir : String := "output"

/-- The body of the `try` block of the `/upload` handler, together with
the `catch` clause: probe, transcode, publish sequentially, answer 200
with the name→CID mapping, or 500 `"Processing failed"` with
`details = error.message` on the first stage failure.  The second
component is the effect trace of the pipeline. -/
def handleCore (w : World) (reqToken : Nat) : Response × List Ev :=
  let outputFolder := outputDir ++ "/" ++ Nat.repr reqToken
  match getVideoResolution w.probeRes with
  | .error e => (⟨500, some "Processing failed", e.messageField, none, none⟩,
                 [Ev.probe])
  | .ok inputHeight =>
    match transcodeVideo w.encodeRes w.tsOf outputFolder inputHeight with
    | (.error e, ttr) => (⟨500, some "Processing failed", some e, none, none⟩,
                          Ev.probe :: ttr)
    | (.ok transcodedFiles, ttr) =>
      match publishAll w.storeRes transcodedFiles with
      | (.error e, ptr) => (⟨500, some "Processing failed", some e, none, none⟩,
                            Ev.probe :: (ttr ++ ptr))
      | (.ok ipfsCIDs, ptr) => (⟨200, none, none, some "Processing complete", some ipfsCIDs⟩,
                                Ev.probe :: (ttr ++ ptr))

/-- The `/upload` handler: reject with 400 when no file was uploaded;
otherwise run the pipeline (`handleCore`) and `finally` unlink the
original upload, a cleanup failure being caught and logged only.
Result: (response, effect trace, cleanup log). -/
def handle (w : World) (reqFile : Option String) (reqToken : Nat) :
    Response × List Ev × List String :=
  match reqFile with
  | none => (⟨400, some "No file uploaded", none, none, none⟩, [], [])
  | some inputFile =>
    match handleCore w reqToken with
    | (resp, tr) =>
      (resp, tr ++ [Ev.unlink inputFile],
       if w.cleanupFails then ["Error deleting file"]
       else ["Deleted original file: " ++ inputFile])

/-- Extraction of the value of a successful `Except`, with a default for
the error case (used only where success is known). -/
def getOkD : Except ε α → α → α
  | .ok a, _ => a
  | .error _, d => d

/-- Generalisation of `parseDigits` to an arbitrary accumulator (only a
proof device for the base-10 fold). -/
def parseDigitsFrom (a : Nat) (l : List Char) : Nat :=
  l.foldl (fun a c => 10 * a + (c.toNat - '0'.toNat)) a

/-- The inclusion predicate exactly as written in the filter:
`height <= inputHeight || height === inputHeight`. -/
def inclPredCode (h H : Int) : Bool :=
  decide (h ≤ H) || (h == H)

/-- The inclusion predicate as the spec words it: the single comparison
`height <= inputHeight`. -/
def inclPredSpec (h H : Int) : Bool :=
  decide (h ≤ H)

/-- The ladder selector over an arbitrary catalog, with the two-clause
predicate of the code. -/
def selectLadderCode (catalog : List Resolution) (H : Int) : List Resolution :=
  catalog.filter fun r => inclPredCode (frameHeight r.size) H

/-- The ladder selector over an arbitrary catalog, with the spec's plain
`<=` predicate. -/
def selectLadderSpec (catalog : List Resolution) (H : Int) : List Resolution :=
  catalog.filter fun r => inclPredSpec (frameHeight r.size) H

/-! ### Helper lemmas -/

theorem frameHeight_1080 : frameHeight "1920x1080" = 1080 := by decide

theorem frameHeight_720 : frameHeight "1280x720" = 720 := by decide

theorem frameHeight_480 : frameHeight "854x480" = 480 := by decide

theorem frameHeight_360 : frameHeight "640x360" = 360 := by decide

theorem mem_availableResolutions {H : Nat} {r : Resolution} (hr : r ∈ resolutions) :
    r ∈ availableResolutions H ↔ frameHeight r.size ≤ H := by
  simp only [resolutions, List.mem_cons, List.not_mem_nil, or_false] at hr
  rcases hr with hr | hr | hr | hr <;> subst hr <;>
    simp [availableResolutions, resolutions, List.mem_filter,
      frameHeight_1080, frameHeight_720, frameHeight_480, frameHeight_360] <;>
    omega

theorem availableResolutions_sublist (H : Nat) :
    (availableResolutions H).Sublist resolutions :=
  List.filter_sublist _

theorem availableResolutions_of_lt_360 {H : Nat} (hH : H < 360) :
    availableResolutions H = [] := by
  have h1 : ¬ (1080 ≤ H) := by omega
  have h2 : ¬ (720 ≤ H) := by omega
  have h3 : ¬ (480 ≤ H) := by omega
  have h4 : ¬ (360 ≤ H) := by omega
  have e1 : (1080 == H) = false := by simp; omega
  have e2 : (720 == H) = false := by simp; omega
  have e3 : (480 == H) = false := by simp; omega
  have e4 : (360 == H) = false := by simp; omega
  simp [availableResolutions, resolutions, List.filter,
    frameHeight_1080, frameHeight_720, frameHeight_480, frameHeight_360,
    h1, h2, h3, h4, e1, e2, e3, e4]

/-! ### C1 -/

/-- C1: the Ladder Selector includes a catalog entry of frame height `h`
for source height `H` exactly when `h ≤ H`, the selected entries appear
in the catalog's order (the ladder is a sublist of the catalog), and the
three concrete ladders are as stated: for `H = 1080` all four entries,
for `H = 500` exactly the 480p and 360p entries, for `H = 100` none. -/
theorem ladder_selector_inclusion_and_order :
    (∀ H : Nat, ∀ r ∈ resolutions,
      (r ∈ availableResolutions H ↔ frameHeight r.size ≤ H))
    ∧ (∀ H : Nat, (availableResolutions H).Sublist resolutions)
    ∧ availableResolutions 1080 = resolutions
    ∧ availableResolutions 500 =
        [⟨"480p", "854x480", "1000k"⟩, ⟨"360p", "640x360", "600k"⟩]
    ∧ availableResolutions 100 = [] := by
  refine ⟨fun H r hr => mem_availableResolutions hr,
    fun H => availableResolutions_sublist H, by decide, by decide, by decide⟩

/-- Witness for C1 at `H = 1080` and the 1080p catalog entry. -/
theorem ladder_selector_inclusion_and_order_witness :
    (⟨"1080p", "1920x1080", "5000k"⟩ : Resolution) ∈ availableResolutions 1080 ↔
      frameHeight "1920x1080" ≤ 1080 :=
  ladder_selector_inclusion_and_order.1 1080 _ (by decide)

/-! ### C9 -/

/-- C9: the two-clause filter predicate written in the code,
`h <= H || h === H`, agrees with the plain comparison `h <= H` on every
pair of integers, so the selector built from either predicate returns
the same ladder on every catalog and every input height; the concrete
`availableResolutions` likewise equals the filter by plain `<=`. -/
theorem filter_predicate_equivalence :
    (∀ h H : Int, inclPredCode h H = inclPredSpec h H)
    ∧ (∀ (catalog : List Resolution) (H : Int),
        selectLadderCode catalog H = selectLadderSpec catalog H)
    ∧ (∀ H : Nat, availableResolutions H =
        resolutions.filter fun r => decide (frameHeight r.size ≤ H)) := by
  have hpred : ∀ h H : Int, inclPredCode h H = inclPredSpec h H := by
    intro h H
    simp only [inclPredCode, inclPredSpec]
    by_cases hle : h ≤ H
    · simp [hle]
    · have : ¬ (h = H) := by omega
      simp [hle, this]
  refine ⟨hpred, fun catalog H => ?_, fun H => ?_⟩
  · simp only [selectLadderCode, selectLadderSpec]
    exact List.filter_congr fun r _ => hpred _ _
  · simp only [availableResolutions]
    refine List.filter_congr fun r _ => ?_
    by_cases hle : frameHeight r.size ≤ H
    · simp [hle]
    · have : ¬ (frameHeight r.size = H) := by omega
      simp [hle, this]

/-! ### C10 -/

/-- C10: a request to `/upload` carrying no file is answered with status
400 and body `{"error": "No file uploaded"}`, and no pipeline stage runs
at all — the effect trace is empty (no probe, no encode, no store, no
unlink) and no cleanup log is produced. -/
theorem no_file_uploaded_short_circuit :
    ∀ (w : World) (reqToken : Nat),
      handle w none reqToken =
        (⟨400, some "No file uploaded", none, none, none⟩, [], []) := by
  intro w reqToken
  rfl

/-! ### Helpers for the coordinator and publisher -/

theorem promiseAll_error_of_mem {ε α : Type} {l : List (Except ε α)}
    (h : ∃ e, Except.error e ∈ l) :
    ∃ e, promiseAll l = .error e ∧ Except.error e ∈ l := by
  induction l with
  | nil => simp at h
  | cons x rest ih =>
    cases x with
    | error e => exact ⟨e, rfl, List.mem_cons_self _ _⟩
    | ok a =>
      obtain ⟨e, he⟩ := h
      have hmem : Except.error e ∈ rest := by
        rcases List.mem_cons.1 he with h' | h'
        · cases h'
        · exact h'
      obtain ⟨e', he', hmem'⟩ := ih ⟨e, hmem⟩
      refine ⟨e', ?_, List.mem_cons_of_mem _ hmem'⟩
      simp [promiseAll, he']

theorem promiseAll_map_ok {α β ε : Type} {l : List α} {g : α → Except ε β} {v : α → β}
    (h : ∀ a ∈ l, g a = .ok (v a)) :
    promiseAll (l.map g) = .ok (l.map v) := by
  induction l with
  | nil => rfl
  | cons x rest ih =>
    have hx := h x (List.mem_cons_self _ _)
    have hrest := ih fun a ha => h a (List.mem_cons_of_mem _ ha)
    simp [promiseAll, hx, hrest]

theorem encodeJob_error_iff {enc : String → Except String Unit} {ts : String → Nat}
    {fold : String} {r : Resolution} {e : String} :
    encodeJob enc ts fold r = .error e ↔ enc r.name = .error e := by
  unfold encodeJob
  cases h : enc r.name <;> simp

theorem publishAll_fail (storeRes : String → Except String String)
    (pre : List (String × String)) (n p e : String) (post : List (String × String))
    (hok : ∀ f ∈ pre, ∃ cid, storeRes f.2 = .ok cid)
    (hfail : storeRes p = .error e) :
    publishAll storeRes (pre ++ (n, p) :: post) =
      (.error e, (pre ++ [(n, p)]).map fun f => Ev.store f.2) := by
  induction pre with
  | nil => simp [publishAll, hfail]
  | cons f pre ih =>
    obtain ⟨cid, hcid⟩ := hok f (List.mem_cons_self _ _)
    have ih' := ih fun g hg => hok g (List.mem_cons_of_mem _ hg)
    obtain ⟨fn, fp⟩ := f
    simp only [List.cons_append, publishAll, hcid, List.append_eq, ih', List.map_cons]

theorem publishAll_ok (storeRes : String → Except String String)
    (cv : String → String) {files : List (String × String)}
    (h : ∀ f ∈ files, storeRes f.2 = .ok (cv f.2)) :
    publishAll storeRes files =
      (.ok (files.map fun f => (f.1, cv f.2)), files.map fun f => Ev.store f.2) := by
  induction files with
  | nil => rfl
  | cons f rest ih =>
    have hf := h f (List.mem_cons_self _ _)
    have ih' := ih fun g hg => h g (List.mem_cons_of_mem _ hg)
    obtain ⟨fn, fp⟩ := f
    simp only [publishAll, hf, ih', List.map_cons]

theorem publishAll_trace_take (storeRes : String → Except String String) :
    ∀ files : List (String × String),
      ∃ k, (publishAll storeRes files).2 =
        (files.take k).map fun f => Ev.store f.2 := by
  intro files
  induction files with
  | nil => exact ⟨0, rfl⟩
  | cons f rest ih =>
    obtain ⟨fn, fp⟩ := f
    cases hs : storeRes fp with
    | error e => exact ⟨1, by simp [publishAll, hs]⟩
    | ok cid =>
      obtain ⟨k, hk⟩ := ih
      refine ⟨k + 1, ?_⟩
      cases hp : publishAll storeRes rest with
      | mk res tr =>
        rw [hp] at hk
        cases res <;> simp_all [publishAll, hs, hp]

theorem publishAll_trace_stores {storeRes : String → Except String String}
    {files : List (String × String)} {ev : Ev}
    (h : ev ∈ (publishAll storeRes files).2) : ∃ p, ev = Ev.store p := by
  obtain ⟨k, hk⟩ := publishAll_trace_take storeRes files
  rw [hk] at h
  obtain ⟨f, _, hf⟩ := List.mem_map.1 h
  exact ⟨f.2, hf.symm⟩

/-! ### C2 -/

/-- C2: all-or-nothing join of the Parallel Encode Coordinator — if at
least one encode job of the selected ladder fails, `transcodeVideo`'s
aggregate result is a failure carrying the error of an observed failing
job, and no (partial) list of successful `{name, path}` entries is
returned. -/
theorem coordinator_all_or_nothing
    (encodeRes : String → Except String Unit) (tsOf : String → Nat)
    (outputFolder : String) (inputHeight : Nat)
    (hfail : ∃ r ∈ availableResolutions inputHeight, ∃ e, encodeRes r.name = .error e) :
    (∃ e, (transcodeVideo encodeRes tsOf outputFolder inputHeight).1 = .error e
      ∧ ∃ r ∈ availableResolutions inputHeight, encodeRes r.name = .error e)
    ∧ ∀ l, (transcodeVideo encodeRes tsOf outputFolder inputHeight).1 ≠ .ok l := by
  obtain ⟨r, hr, e, he⟩ := hfail
  have hjob : encodeJob encodeRes tsOf outputFolder r = .error e :=
    encodeJob_error_iff.2 he
  have hmem : Except.error e ∈
      (availableResolutions inputHeight).map (encodeJob encodeRes tsOf outputFolder) :=
    List.mem_map.2 ⟨r, hr, hjob⟩
  obtain ⟨e', he', hmem'⟩ := promiseAll_error_of_mem ⟨e, hmem⟩
  obtain ⟨r', hr', hjob'⟩ := List.mem_map.1 hmem'
  refine ⟨⟨e', ?_, r', hr', encodeJob_error_iff.1 hjob'⟩, ?_⟩
  · simpa [transcodeVideo] using he'
  · intro l
    simp [transcodeVideo, he']

/-- Witness for C2: with a ladder for `H = 500` and the 480p encode
failing, the coordinator does not return the success list of the two
surviving jobs (nor any other). -/
theorem coordinator_all_or_nothing_witness :
    (transcodeVideo
        (fun n => if n == "480p" then .error "ffmpeg crashed" else .ok ())
        (fun _ => 5) "output/1" 500).1 ≠
      .ok [("video_360p_5.mp4", "output/1/video_360p_5.mp4")] :=
  (coordinator_all_or_nothing _ _ _ _
    ⟨⟨"480p", "854x480", "1000k"⟩, by decide, "ffmpeg crashed", rfl⟩).2
    [("video_360p_5.mp4", "output/1/video_360p_5.mp4")]

/-! ### C3 -/

/-- C3: Publisher all-or-nothing and sequencing — the store calls are
issued strictly sequentially in input order (the call trace is always
the image of an input-order prefix of the file list); when the store
call for the `i`-th file fails after the first `i - 1` succeeded, the
operation surfaces exactly that error, the caller receives no
name→contentId mapping at all, and the calls actually issued are
exactly the first `i` in input order (the earlier remote publishes
having happened and not been undone). -/
theorem publisher_all_or_nothing
    (storeRes : String → Except String String)
    (pre : List (String × String)) (n p : String) (post : List (String × String))
    (e : String)
    (hok : ∀ f ∈ pre, ∃ cid, storeRes f.2 = .ok cid)
    (hfail : storeRes p = .error e) :
    (∀ files : List (String × String),
      ∃ k, (publishAll storeRes files).2 = (files.take k).map fun f => Ev.store f.2)
    ∧ (publishAll storeRes (pre ++ (n, p) :: post)).1 = .error e
    ∧ (∀ m, (publishAll storeRes (pre ++ (n, p) :: post)).1 ≠ .ok m)
    ∧ (publishAll storeRes (pre ++ (n, p) :: post)).2 =
        (pre ++ [(n, p)]).map fun f => Ev.store f.2 := by
  have hmain := publishAll_fail storeRes pre n p e post hok hfail
  refine ⟨publishAll_trace_take storeRes, ?_, ?_, ?_⟩
  · rw [hmain]
  · intro m
    rw [hmain]
    simp
  · rw [hmain]

/-- Witness for C3: three files, the second store call fails — the
result is that error and exactly the first two store calls were issued,
in input order. -/
theorem publisher_all_or_nothing_witness :
    (publishAll (fun s => if s == "b" then .error "netfail" else .ok "Qm")
        [("n1", "a"), ("n2", "b"), ("n3", "c")]).1 = .error "netfail"
    ∧ (publishAll (fun s => if s == "b" then .error "netfail" else .ok "Qm")
        [("n1", "a"), ("n2", "b"), ("n3", "c")]).2 =
        [Ev.store "a", Ev.store "b"] :=
  ⟨(publisher_all_or_nothing _ [("n1", "a")] "n2" "b" [("n3", "c")] "netfail"
      (by
        intro f hf
        simp only [List.mem_singleton] at hf
        subst hf
        exact ⟨"Qm", rfl⟩)
      rfl).2.1,
   (publisher_all_or_nothing _ [("n1", "a")] "n2" "b" [("n3", "c")] "netfail"
      (by
        intro f hf
        simp only [List.mem_singleton] at hf
        subst hf
        exact ⟨"Qm", rfl⟩)
      rfl).2.2.2⟩

/-! ### Helpers for the request orchestrator -/

theorem unlink_not_mem_handleCore (w : World) (t : Nat) (p : String) :
    Ev.unlink p ∉ (handleCore w t).2 := by
  intro h
  unfold handleCore at h
  cases hE : getVideoResolution w.probeRes with
  | error e =>
    rw [hE] at h
    simp at h
  | ok inputHeight =>
    rw [hE] at h
    cases hP : promiseAll ((availableResolutions inputHeight).map
        (encodeJob w.encodeRes w.tsOf (outputDir ++ "/" ++ Nat.repr t))) with
    | error e =>
      simp [transcodeVideo, hP] at h
    | ok files =>
      cases hQ : publishAll w.storeRes files with
      | mk pres ptr =>
        cases pres <;>
        · simp [transcodeVideo, hP, hQ] at h
          obtain ⟨q, hq⟩ := publishAll_trace_stores (by rw [hQ]; exact h)
          cases hq

theorem handleCore_cleanup_irrelevant (w : World) (b : Bool) (t : Nat) :
    handleCore { w with cleanupFails := b } t = handleCore w t := rfl

/-! ### C4 -/

/-- C4: after any request that reaches a terminal state (one that
carried a file, so the pipeline ran to success or to a stage failure),
the original uploaded file is unlinked exactly once, after every other
effect; and whether the cleanup deletion fails has no influence on the
response or on the effect trace — it only changes the log line. -/
theorem cleanup_exactly_once_and_isolated (w : World) (inputFile : String) (reqToken : Nat) :
    (∃ tr, (handle w (some inputFile) reqToken).2.1 = tr ++ [Ev.unlink inputFile]
      ∧ ∀ p, Ev.unlink p ∉ tr)
    ∧ (∀ b : Bool,
        (handle { w with cleanupFails := b } (some inputFile) reqToken).1 =
          (handle w (some inputFile) reqToken).1
        ∧ (handle { w with cleanupFails := b } (some inputFile) reqToken).2.1 =
          (handle w (some inputFile) reqToken).2.1) := by
  rcases hC : handleCore w reqToken with ⟨resp, tr⟩
  constructor
  · refine ⟨tr, ?_, ?_⟩
    · simp [handle, hC]
    · intro p hp
      exact unlink_not_mem_handleCore w reqToken p (by rw [hC]; exact hp)
  · intro b
    have hC' : handleCore { w with cleanupFails := b } reqToken = (resp, tr) := by
      rw [handleCore_cleanup_irrelevant, hC]
    constructor <;> simp [handle, hC, hC']

/-! ### C7 -/

/-- C7: when the probed source height is below the smallest catalog
entry (360), the selector yields the empty ladder, no encode job and no
store call is issued, and the request succeeds with status 200 and an
empty `files` mapping. -/
theorem empty_ladder_success (w : World) (f : String) (t : Nat) (H : Nat)
    (hprobe : getVideoResolution w.probeRes = .ok H) (hH : H < 360) :
    availableResolutions H = []
    ∧ (handle w (some f) t).1 =
        ⟨200, none, none, some "Processing complete", some []⟩
    ∧ (∀ n, Ev.encode n ∉ (handle w (some f) t).2.1)
    ∧ (∀ p, Ev.store p ∉ (handle w (some f) t).2.1) := by
  have hav := availableResolutions_of_lt_360 hH
  have hcore : handleCore w t =
      (⟨200, none, none, some "Processing complete", some []⟩,
       [Ev.probe, Ev.ensureDir (outputDir ++ "/" ++ Nat.repr t)]) := by
    unfold handleCore
    rw [hprobe]
    simp [transcodeVideo, hav, promiseAll, publishAll]
  refine ⟨hav, ?_, ?_, ?_⟩ <;> simp [handle, hcore]

/-- Witness for C7 at a 300-pixel-tall probed source: the ladder is
empty and the request succeeds with an empty files mapping. -/
theorem empty_ladder_success_witness :
    availableResolutions 300 = []
    ∧ (handle ⟨.ok [⟨"video", some 300⟩], fun _ => .ok (), fun _ => .ok "Qm",
        fun _ => 5, false⟩ (some "uploads/v") 9).1 =
        ⟨200, none, none, some "Processing complete", some []⟩ :=
  ⟨(empty_ladder_success ⟨.ok [⟨"video", some 300⟩], fun _ => .ok (),
      fun _ => .ok "Qm", fun _ => 5, false⟩ "uploads/v" 9 300 rfl (by decide)).1,
   (empty_ladder_success ⟨.ok [⟨"video", some 300⟩], fun _ => .ok (),
      fun _ => .ok "Qm", fun _ => 5, false⟩ "uploads/v" 9 300 rfl (by decide)).2.1⟩

/-! ### C8 -/

/-- C8 counterexample: for the inspection result whose single stream has
`codec_type = "video"` and `height = 0`, the first video stream exists
and carries a height, yet the probe does not return that height — it
fails, because the JS truthiness test `videoStream && videoStream.height`
treats the number `0` as false.  This falsifies the claimed equivalence
"the probe returns the height of the first video stream, and fails
(only) when the call errors, no video stream exists, or the height is
lacking". -/
theorem probe_claim_counterexample :
    (([⟨"video", some 0⟩] : List StreamInfo).find?
        (fun s => s.codec_type == "video") = some ⟨"video", some 0⟩)
    ∧ ((⟨"video", some 0⟩ : StreamInfo).height = some 0)
    ∧ getVideoResolution (.ok [⟨"video", some 0⟩]) ≠ .ok 0
    ∧ getVideoResolution (.ok [⟨"video", some 0⟩]) =
        .error (.strVal "Could not determine video resolution.") := by
  refine ⟨rfl, rfl, ?_, rfl⟩
  intro h
  cases h

/-- C8 amended: the probe returns the height of the first stream whose
type is `"video"` when that height is present and nonzero, and fails
when the inspection call errors, when no video stream exists, or when
the first video stream's height is absent or zero (JS-falsy); any probe
failure yields the single 500 response with category
`"Processing failed"` — the `details` field being the underlying
`Error`'s message for an inspection-call error and absent for the
internal bare-string rejection — with no encoding attempted and no file
or directory touched under the output root (the trace holds only the
probe call and the cleanup unlink). -/
theorem probe_behavior_and_propagation (w : World) (f : String) (t : Nat) :
    (∀ (streams : List StreamInfo) (vs : StreamInfo) (h : Nat),
      w.probeRes = .ok streams →
      streams.find? (fun s => s.codec_type == "video") = some vs →
      vs.height = some h → h ≠ 0 →
      getVideoResolution w.probeRes = .ok h)
    ∧ (∀ m : String, w.probeRes = .error m →
        getVideoResolution w.probeRes = .error (.errObj m))
    ∧ (∀ streams : List StreamInfo, w.probeRes = .ok streams →
        (streams.find? (fun s => s.codec_type == "video") = none
          ∨ ∃ vs, streams.find? (fun s => s.codec_type == "video") = some vs
              ∧ (vs.height = none ∨ vs.height = some 0)) →
        getVideoResolution w.probeRes =
          .error (.strVal "Could not determine video resolution."))
    ∧ (∀ e : JsErr, getVideoResolution w.probeRes = .error e →
        (handle w (some f) t).1 =
          ⟨500, some "Processing failed", e.messageField, none, none⟩
        ∧ (handle w (some f) t).2.1 = [Ev.probe, Ev.unlink f]) := by
  refine ⟨?_, ?_, ?_, ?_⟩
  · intro streams vs h hpr hfind hh hne
    simp [getVideoResolution, hpr, hfind, hh, hne]
  · intro m hpr
    simp [getVideoResolution, hpr]
  · intro streams hpr hcase
    rcases hcase with hnone | ⟨vs, hfind, hh | hh⟩
    · simp [getVideoResolution, hpr, hnone]
    · simp [getVideoResolution, hpr, hfind, hh]
    · simp [getVideoResolution, hpr, hfind, hh]
  · intro e he
    have hcore : handleCore w t =
        (⟨500, some "Processing failed", e.messageField, none, none⟩, [Ev.probe]) := by
      unfold handleCore
      rw [he]
    constructor <;> simp [handle, hcore]

/-- Witness for C8 (amended): a metadata list with no video stream makes
the probe fail with the bare-string rejection, and the request is
answered 500 `"Processing failed"` with no `details` field; the trace
holds only the probe call and the cleanup unlink — no encode, no store,
nothing under the output root. -/
theorem probe_behavior_and_propagation_witness :
    (handle ⟨.ok [⟨"audio", none⟩], fun _ => .ok (), fun _ => .ok "Qm",
        fun _ => 5, false⟩ (some "uploads/v") 3).1 =
      ⟨500, some "Processing failed",
        JsErr.messageField (.strVal "Could not determine video resolution."),
        none, none⟩
    ∧ (handle ⟨.ok [⟨"audio", none⟩], fun _ => .ok (), fun _ => .ok "Qm",
        fun _ => 5, false⟩ (some "uploads/v") 3).2.1 =
      [Ev.probe, Ev.unlink "uploads/v"] :=
  (probe_behavior_and_propagation _ "uploads/v" 3).2.2.2
    (.strVal "Could not determine video resolution.") rfl

/-! ### String and decimal-representation helpers -/

theorem append_cons_ne (p : List Char) (c1 c2 : Char) (l1 l2 : List Char)
    (hc : c1 ≠ c2) : p ++ c1 :: l1 ≠ p ++ c2 :: l2 := by
  intro h
  exact hc (List.cons.inj (List.append_cancel_left h)).1

theorem outputFileName_ne (n1 n2 : String) (c1 c2 : Char) (l1 l2 : List Char)
    (h1 : n1.data = c1 :: l1) (h2 : n2.data = c2 :: l2) (hc : c1 ≠ c2)
    (t1 t2 : Nat) : outputFileName n1 t1 ≠ outputFileName n2 t2 := by
  intro h
  have hd := congrArg String.data h
  simp only [outputFileName, String.data_append, h1, h2, List.cons_append,
    List.append_assoc, List.nil_append, List.cons.injEq, true_and,
    and_true, eq_self_iff_true] at hd
  exact hc hd.1

theorem outputFileNames_nodup (tsOf : String → Nat) :
    (resolutions.map fun r => outputFileName r.name (tsOf r.name)).Nodup := by
  have h17 := outputFileName_ne "1080p" "720p" '1' '7' ['0', '8', '0', 'p'] ['2', '0', 'p']
    rfl rfl (by decide)
  have h14 := outputFileName_ne "1080p" "480p" '1' '4' ['0', '8', '0', 'p'] ['8', '0', 'p']
    rfl rfl (by decide)
  have h13 := outputFileName_ne "1080p" "360p" '1' '3' ['0', '8', '0', 'p'] ['6', '0', 'p']
    rfl rfl (by decide)
  have h74 := outputFileName_ne "720p" "480p" '7' '4' ['2', '0', 'p'] ['8', '0', 'p']
    rfl rfl (by decide)
  have h73 := outputFileName_ne "720p" "360p" '7' '3' ['2', '0', 'p'] ['6', '0', 'p']
    rfl rfl (by decide)
  have h43 := outputFileName_ne "480p" "360p" '4' '3' ['8', '0', 'p'] ['6', '0', 'p']
    rfl rfl (by decide)
  simp only [resolutions, List.map_cons, List.map_nil, List.nodup_cons,
    List.mem_cons, List.not_mem_nil, or_false, List.nodup_nil, and_true,
    not_or, not_false_eq_true, List.mem_singleton, ne_eq]
  exact ⟨⟨h17 _ _, h14 _ _, h13 _ _⟩, ⟨h74 _ _, h73 _ _⟩, h43 _ _⟩

theorem parseDigitsFrom_shift (l : List Char) :
    ∀ a : Nat, parseDigitsFrom a l = a * 10 ^ l.length + parseDigitsFrom 0 l := by
  induction l with
  | nil => intro a; simp [parseDigitsFrom]
  | cons c l ih =>
    intro a
    have e1 : parseDigitsFrom a (c :: l) =
        parseDigitsFrom (10 * a + (c.toNat - '0'.toNat)) l := rfl
    have e2 : parseDigitsFrom 0 (c :: l) =
        parseDigitsFrom (10 * 0 + (c.toNat - '0'.toNat)) l := rfl
    rw [e1, e2, ih (10 * a + (c.toNat - '0'.toNat)),
      ih (10 * 0 + (c.toNat - '0'.toNat)), List.length_cons]
    ring

theorem digitChar_val : ∀ m : Nat, m < 10 → (Nat.digitChar m).toNat - '0'.toNat = m := by
  decide

theorem digitChar_isDigit : ∀ m : Nat, m < 10 → (Nat.digitChar m).isDigit = true := by
  decide

theorem toDigitsCore_val :
    ∀ (fuel n : Nat) (acc : List Char), n < fuel →
      parseDigitsFrom 0 (Nat.toDigitsCore 10 fuel n acc) =
        n * 10 ^ acc.length + parseDigitsFrom 0 acc := by
  intro fuel
  induction fuel with
  | zero => intro n acc h; omega
  | succ fuel ih =>
    intro n acc h
    simp only [Nat.toDigitsCore]
    by_cases h0 : n / 10 = 0
    · simp only [h0, if_true]
      have hlt : n % 10 < 10 := Nat.mod_lt _ (by decide)
      have hn : n % 10 = n := by omega
      have e : parseDigitsFrom 0 (Nat.digitChar (n % 10) :: acc) =
          parseDigitsFrom (10 * 0 + ((Nat.digitChar (n % 10)).toNat - '0'.toNat)) acc := rfl
      rw [e, digitChar_val _ hlt, hn, parseDigitsFrom_shift]
      ring
    · simp only [h0, if_false]
      have hfuel : n / 10 < fuel := by omega
      rw [ih (n / 10) (Nat.digitChar (n % 10) :: acc) hfuel]
      have hlt : n % 10 < 10 := Nat.mod_lt _ (by decide)
      have e : parseDigitsFrom 0 (Nat.digitChar (n % 10) :: acc) =
          parseDigitsFrom (10 * 0 + ((Nat.digitChar (n % 10)).toNat - '0'.toNat)) acc := rfl
      rw [List.length_cons, e, digitChar_val _ hlt, parseDigitsFrom_shift]
      have hsplit : n = 10 * (n / 10) + n % 10 := by omega
      calc n / 10 * 10 ^ (acc.length + 1)
            + ((10 * 0 + n % 10) * 10 ^ acc.length + parseDigitsFrom 0 acc)
          = (10 * (n / 10) + n % 10) * 10 ^ acc.length + parseDigitsFrom 0 acc := by ring
        _ = n * 10 ^ acc.length + parseDigitsFrom 0 acc := by rw [← hsplit]

theorem parseDigits_repr (n : Nat) : parseDigits (Nat.repr n).data = n := by
  have e : (Nat.repr n).data = Nat.toDigitsCore 10 (n + 1) n [] := rfl
  have e2 : parseDigits (Nat.repr n).data = parseDigitsFrom 0 (Nat.repr n).data := rfl
  rw [e2, e, toDigitsCore_val (n + 1) n [] (Nat.lt_succ_self n)]
  simp [parseDigitsFrom]

theorem repr_data_inj {m n : Nat} (h : (Nat.repr m).data = (Nat.repr n).data) :
    m = n := by
  have hm := parseDigits_repr m
  have hn := parseDigits_repr n
  rw [h] at hm
  omega

theorem toDigitsCore_digits :
    ∀ (fuel n : Nat) (acc : List Char), (∀ c ∈ acc, c.isDigit = true) →
      ∀ c ∈ Nat.toDigitsCore 10 fuel n acc, c.isDigit = true := by
  intro fuel
  induction fuel with
  | zero => intro n acc hacc; exact hacc
  | succ fuel ih =>
    intro n acc hacc
    have hlt : n % 10 < 10 := Nat.mod_lt _ (by decide)
    have hcons : ∀ c ∈ Nat.digitChar (n % 10) :: acc, c.isDigit = true := by
      intro c hc
      rcases List.mem_cons.1 hc with hc | hc
      · rw [hc]; exact digitChar_isDigit _ hlt
      · exact hacc c hc
    simp only [Nat.toDigitsCore]
    by_cases h0 : n / 10 = 0
    · simp only [h0, if_true]
      exact hcons
    · simp only [h0, if_false]
      exact ih (n / 10) _ hcons

theorem repr_digits (n : Nat) : ∀ c ∈ (Nat.repr n).data, c.isDigit = true := by
  have e : (Nat.repr n).data = Nat.toDigitsCore 10 (n + 1) n [] := rfl
  rw [e]
  exact toDigitsCore_digits (n + 1) n [] (by intro c hc; cases hc)

theorem ne_slash_of_isDigit {c : Char} (h : c.isDigit = true) : c ≠ '/' := by
  intro hc
  rw [hc] at h
  exact absurd h (by decide)

theorem append_slash_inj :
    ∀ (l1 l2 r1 r2 : List Char), (∀ c ∈ l1, c ≠ '/') → (∀ c ∈ l2, c ≠ '/') →
      l1 ++ '/' :: r1 = l2 ++ '/' :: r2 → l1 = l2 := by
  intro l1
  induction l1 with
  | nil =>
    intro l2 r1 r2 _ h2 heq
    cases l2 with
    | nil => rfl
    | cons d l2 =>
      exfalso
      have : '/' = d := (List.cons.inj heq).1
      exact h2 d (List.mem_cons_self _ _) this.symm
  | cons c l1 ih =>
    intro l2 r1 r2 h1 h2 heq
    cases l2 with
    | nil =>
      exfalso
      have : c = '/' := (List.cons.inj heq).1
      exact h1 c (List.mem_cons_self _ _) this
    | cons d l2 =>
      have hcd : c = d := (List.cons.inj heq).1
      have htl : l1 ++ '/' :: r1 = l2 ++ '/' :: r2 := (List.cons.inj heq).2
      have := ih l2 r1 r2 (fun x hx => h1 x (List.mem_cons_of_mem _ hx))
        (fun x hx => h2 x (List.mem_cons_of_mem _ hx)) htl
      rw [hcd, this]

/-! ### C6 -/

/-- C6: two requests with distinct per-request tokens (the
`Date.now()` value naming the per-request working directory) can never
collide on a full output path, whatever rendition name and whatever
per-job timestamps are involved: the token is a decimal string, so the
first slash after the output root delimits it unambiguously. -/
theorem cross_request_no_filename_collision (t1 t2 ts1 ts2 : Nat) (rname : String)
    (h : t1 ≠ t2) :
    outputFilePath (outputDir ++ "/" ++ Nat.repr t1) rname ts1 ≠
      outputFilePath (outputDir ++ "/" ++ Nat.repr t2) rname ts2 := by
  intro heq
  apply h
  have hd := congrArg String.data heq
  simp only [outputFilePath, String.data_append, List.append_assoc,
    List.cons_append, List.nil_append, List.cons.injEq, true_and,
    and_true, eq_self_iff_true] at hd
  have hs1 : ∀ c ∈ (Nat.repr t1).data, c ≠ '/' :=
    fun c hc => ne_slash_of_isDigit (repr_digits t1 c hc)
  have hs2 : ∀ c ∈ (Nat.repr t2).data, c ≠ '/' :=
    fun c hc => ne_slash_of_isDigit (repr_digits t2 c hc)
  have hd2 := (List.cons.inj (List.append_cancel_left hd)).2
  exact repr_data_inj (append_slash_inj _ _ _ _ hs1 hs2 hd2)

/-- Witness for C6 at tokens 1 and 2 with equal job timestamps and the
same rendition name. -/
theorem cross_request_no_filename_collision_witness :
    outputFilePath (outputDir ++ "/" ++ Nat.repr 1) "720p" 5 ≠
      outputFilePath (outputDir ++ "/" ++ Nat.repr 2) "720p" 5 :=
  cross_request_no_filename_collision 1 2 5 5 "720p" (by decide)

/-! ### C5 -/

/-- C5: when the probe succeeds and every encode job of the selected
ladder succeeds, the coordinator returns exactly one `{name, path}`
entry per ladder entry (in particular as many entries as the ladder
has), the output filenames are pairwise distinct, and — provided every
store call yields a non-empty content identifier — the success response
maps, for each ladder entry, a key that is the entry's output filename
(which contains its resolution tag as a substring) to a non-empty
content identifier. -/
theorem coordinator_success_shape (w : World) (f : String) (t : Nat) (H : Nat)
    (hprobe : getVideoResolution w.probeRes = .ok H)
    (henc : ∀ r ∈ availableResolutions H, w.encodeRes r.name = .ok ())
    (hstore : ∀ p : String, ∃ cid, w.storeRes p = .ok cid ∧ cid ≠ "") :
    (transcodeVideo w.encodeRes w.tsOf (outputDir ++ "/" ++ Nat.repr t) H).1 =
      .ok ((availableResolutions H).map fun r =>
        (outputFileName r.name (w.tsOf r.name),
         outputFilePath (outputDir ++ "/" ++ Nat.repr t) r.name (w.tsOf r.name)))
    ∧ ((availableResolutions H).map fun r => outputFileName r.name (w.tsOf r.name)).Nodup
    ∧ ∃ cids : List (String × String),
        (handle w (some f) t).1 =
          ⟨200, none, none, some "Processing complete", some cids⟩
        ∧ cids.length = (availableResolutions H).length
        ∧ ∀ r ∈ availableResolutions H, ∃ c,
            (outputFileName r.name (w.tsOf r.name), c) ∈ cids
            ∧ c ≠ ""
            ∧ ∃ a b, outputFileName r.name (w.tsOf r.name) = a ++ r.name ++ b := by
  have hjob : ∀ r ∈ availableResolutions H,
      encodeJob w.encodeRes w.tsOf (outputDir ++ "/" ++ Nat.repr t) r =
        .ok (outputFileName r.name (w.tsOf r.name),
             outputFilePath (outputDir ++ "/" ++ Nat.repr t) r.name (w.tsOf r.name)) := by
    intro r hr
    simp [encodeJob, henc r hr]
  have htrans : promiseAll ((availableResolutions H).map
      (encodeJob w.encodeRes w.tsOf (outputDir ++ "/" ++ Nat.repr t))) =
      .ok ((availableResolutions H).map fun r =>
        (outputFileName r.name (w.tsOf r.name),
         outputFilePath (outputDir ++ "/" ++ Nat.repr t) r.name (w.tsOf r.name))) :=
    promiseAll_map_ok hjob
  have hstore' : ∀ fl ∈ (availableResolutions H).map fun r =>
      (outputFileName r.name (w.tsOf r.name),
       outputFilePath (outputDir ++ "/" ++ Nat.repr t) r.name (w.tsOf r.name)),
      w.storeRes fl.2 = .ok (getOkD (w.storeRes fl.2) "") := by
    intro fl _
    obtain ⟨cid, hc, _⟩ := hstore fl.2
    simp [hc, getOkD]
  have hpub := publishAll_ok w.storeRes (fun p => getOkD (w.storeRes p) "") hstore'
  have hcore : handleCore w t =
      (⟨200, none, none, some "Processing complete",
        some (((availableResolutions H).map fun r =>
          (outputFileName r.name (w.tsOf r.name),
           outputFilePath (outputDir ++ "/" ++ Nat.repr t) r.name (w.tsOf r.name))).map
            fun fl => (fl.1, getOkD (w.storeRes fl.2) ""))⟩,
       Ev.probe :: ((Ev.ensureDir (outputDir ++ "/" ++ Nat.repr t) ::
          (availableResolutions H).map fun r => Ev.encode r.name) ++
        ((availableResolutions H).map fun r =>
          (outputFileName r.name (w.tsOf r.name),
           outputFilePath (outputDir ++ "/" ++ Nat.repr t) r.name (w.tsOf r.name))).map
            fun fl => Ev.store fl.2)) := by
    unfold handleCore
    rw [hprobe]
    simp [transcodeVideo, htrans, hpub]
  refine ⟨by simp [transcodeVideo, htrans], ?_, ?_⟩
  · exact (outputFileNames_nodup w.tsOf).sublist
      (List.Sublist.map _ (availableResolutions_sublist H))
  · refine ⟨((availableResolutions H).map fun r =>
        (outputFileName r.name (w.tsOf r.name),
         outputFilePath (outputDir ++ "/" ++ Nat.repr t) r.name (w.tsOf r.name))).map
          fun fl => (fl.1, getOkD (w.storeRes fl.2) ""), ?_, by simp, ?_⟩
    · simp [handle, hcore]
    · intro r hr
      obtain ⟨cid, hc, hne⟩ := hstore
        (outputFilePath (outputDir ++ "/" ++ Nat.repr t) r.name (w.tsOf r.name))
      refine ⟨getOkD (w.storeRes
          (outputFilePath (outputDir ++ "/" ++ Nat.repr t) r.name (w.tsOf r.name))) "",
        ?_, ?_, "video_", "_" ++ Nat.repr (w.tsOf r.name) ++ ".mp4", ?_⟩
      · rw [List.map_map]
        exact List.mem_map.2 ⟨r, hr, rfl⟩
      · rw [hc]
        simpa [getOkD] using hne
      · simp [outputFileName, String.append_assoc]

/-- Witness for C5: a 500-pixel-tall source, all encodes succeeding,
every store call returning the non-empty identifier `"QmHash"` — the
coordinator returns exactly one entry per ladder entry and the
filenames are pairwise distinct. -/
theorem coordinator_success_shape_witness :
    (transcodeVideo (fun _ => .ok ()) (fun _ => 5) (outputDir ++ "/" ++ Nat.repr 9) 500).1 =
      .ok ((availableResolutions 500).map fun r =>
        (outputFileName r.name 5,
         outputFilePath (outputDir ++ "/" ++ Nat.repr 9) r.name 5))
    ∧ ((availableResolutions 500).map fun r => outputFileName r.name 5).Nodup :=
  ⟨(coordinator_success_shape
      ⟨.ok [⟨"video", some 500⟩], fun _ => .ok (), fun _ => .ok "QmHash",
        fun _ => 5, false⟩ "uploads/v" 9 500 rfl (fun r _ => rfl)
      (fun p => ⟨"QmHash", rfl, by decide⟩)).1,
   (coordinator_success_shape
      ⟨.ok [⟨"video", some 500⟩], fun _ => .ok (), fun _ => .ok "QmHash",
        fun _ => 5, false⟩ "uploads/v" 9 500 rfl (fun r _ => rfl)
      (fun p => ⟨"QmHash", rfl, by decide⟩)).2.1⟩

end Decentra
